import Mathlib

/-
A shallow embedding of `xormigrate.go` (package xormigrate, the migration
engine).  Caller-supplied actions (forward, reverse, init-schema) are
abstracted by their success outcome; the xorm collaborator is modelled by an
explicit state:

* engine-level operations (`x.db.Insert`, `x.db.Count`, `x.db.Delete`,
  `x.db.Sync2`) act on the committed database immediately — in the source
  these run outside the session transaction that `migrate` opens;
* session-level operations (the caller actions, which receive `tx`) record
  pending schema effects that become durable only on `tx.Commit()` and are
  discarded when the deferred `tx.Close()` fires without a commit.

Invocation logs (`forwards`, `inits`, `reverses`) record which actions were
called, in order; a log entry is an observation of a call, so it is never
rolled back.
-/

namespace XM

/-- The reserved sentinel identifier, constant `initSchemaMigrationId` of the
source. -/
def initSchemaMigrationId : String := "SCHEMA_INIT"

/-- The `Migration` struct: identifier, forward action and optional reverse
action, each action abstracted by its success outcome; `rollback = none`
models a nil `Rollback` field. -/
structure Migration where
  id : String
  migrate : Bool
  rollback : Option Bool
deriving DecidableEq

/-- The tracking storage reached through `x.db`: the committed rows of the
migration table in insertion order, plus failure switches for the engine-level
operations (`Count`, `Insert`, `Delete`, `Sync2`). -/
structure DB where
  records : List String
  countErr : Bool
  insertErr : Bool
  deleteErr : Bool
  syncErr : Bool
deriving DecidableEq

/-- The observable execution state: committed database, committed schema
effects, pending (uncommitted) session schema effects, whether `Sync2` ensured
the tracking table, and the invocation logs of forward actions, of the
init-schema function, and of reverse actions. -/
structure St where
  db : DB
  schema : List String
  pending : List String
  ensured : Bool
  forwards : List String
  inits : Nat
  reverses : List String
deriving DecidableEq

/-- The error values of the source: `ReservedIDError`, `DuplicatedIDError`,
the `Err…` variables, plus opaque failures of caller actions and of the
database collaborator. -/
inductive GoErr where
  | reservedID (id : String)
  | duplicatedID (id : String)
  | noMigrationDefined
  | missingID
  | rollbackImpossible
  | noRunMigration
  | migrationIDDoesNotExist
  | unknownPastMigration
  | migrateFailed (id : String)
  | rollbackFailed (id : String)
  | initSchemaFailed
  | dbErr
deriving DecidableEq

/-- The `Xormigrate` struct: the registry and the optional init-schema
function, the latter abstracted by its success outcome (`none` models a nil
`initSchema` field). -/
structure Xormigrate where
  migrations : List Migration
  initSchema : Option Bool

/-- The deferred `tx.Close()` firing on a session that was not committed:
pending schema effects are discarded. -/
def rollbackTx (s : St) : St := { s with pending := [] }

/-- A successful `tx.Commit()`: pending schema effects become durable. -/
def commitTx (s : St) : St :=
  { s with schema := s.schema ++ s.pending, pending := [] }

/-- Function `hasMigrations` of the source: there is a defined initSchema
function or the migration list is non-empty. -/
def hasMigrations (x : Xormigrate) : Bool :=
  x.initSchema.isSome || !x.migrations.isEmpty

/-- The loop body of `checkReservedID`. -/
def checkReservedIDAux : List Migration → Option GoErr
  | [] => none
  | m :: rest =>
    if m.id = initSchemaMigrationId then some (.reservedID m.id)
    else checkReservedIDAux rest

/-- Function `checkReservedID` of the source. -/
def checkReservedID (x : Xormigrate) : Option GoErr :=
  checkReservedIDAux x.migrations

/-- The loop of `checkDuplicatedID`, with the `lookup` set threaded through
(the Go map of already seen identifiers). -/
def checkDuplicatedIDAux : List Migration → List String → Option GoErr
  | [], _ => none
  | m :: rest, lookup =>
    if m.id ∈ lookup then some (.duplicatedID m.id)
    else checkDuplicatedIDAux rest (m.id :: lookup)

/-- Function `checkDuplicatedID` of the source. -/
def checkDuplicatedID (x : Xormigrate) : Option GoErr :=
  checkDuplicatedIDAux x.migrations []

/-- The loop of `checkIDExist`. -/
def checkIDExistAux (migrationID : String) : List Migration → Option GoErr
  | [] => some .migrationIDDoesNotExist
  | m :: rest =>
    if m.id = migrationID then none else checkIDExistAux migrationID rest

/-- Function `checkIDExist` of the source. -/
def checkIDExist (x : Xormigrate) (migrationID : String) : Option GoErr :=
  checkIDExistAux migrationID x.migrations

/-- Function `createMigrationTableIfNotExists` of the source:
`x.db.Sync2(new(Migration))`, an engine-level call. -/
def createMigrationTableIfNotExists (s : St) : St × Option GoErr :=
  if s.db.syncErr then (s, some .dbErr) else ({ s with ensured := true }, none)

/-- Function `migrationDidRun` of the source: count the committed rows whose
identifier equals that of the migration; a count error is discarded and
reported as `false`. -/
def migrationDidRun (s : St) (m : Migration) : Bool :=
  if s.db.countErr then false else decide (m.id ∈ s.db.records)

/-- Function `canInitializeSchema` of the source: the sentinel row must not
have run, and the total committed row count must be zero; either count error
is discarded and reported as `false`. -/
def canInitializeSchema (s : St) : Bool :=
  if migrationDidRun s { id := initSchemaMigrationId, migrate := true, rollback := none } then
    false
  else if s.db.countErr then false
  else s.db.records.isEmpty

/-- Function `insertMigration` of the source: `x.db.Insert(&Migration{ID: id})`,
an engine-level call, so the inserted row is committed immediately. -/
def insertMigration (s : St) (id : String) : St × Option GoErr :=
  if s.db.insertErr then (s, some .dbErr)
  else ({ s with db := { s.db with records := s.db.records ++ [id] } }, none)

/-- The insertion loop of `runInitSchema` over the registry identifiers. -/
def insertMigrations : St → List String → St × Option GoErr
  | s, [] => (s, none)
  | s, id :: rest =>
    match insertMigration s id with
    | (s1, some e) => (s1, some e)
    | (s1, none) => insertMigrations s1 rest

/-- Function `runInitSchema` of the source: invoke the initSchema function
(here its outcome `initOk`), then insert the sentinel row and one row per
registry entry. -/
def runInitSchema (x : Xormigrate) (initOk : Bool) (s : St) : St × Option GoErr :=
  let s1 : St := { s with inits := s.inits + 1 }
  if initOk then
    let s2 : St := { s1 with pending := s1.pending ++ [initSchemaMigrationId] }
    match insertMigration s2 initSchemaMigrationId with
    | (s3, some e) => (s3, some e)
    | (s3, none) => insertMigrations s3 (x.migrations.map Migration.id)
  else (s1, some .initSchemaFailed)

/-- Function `runMigration` of the source: reject an empty identifier, skip a
migration that already ran, otherwise invoke the forward action on the session
and, on success, insert its row through the engine. -/
def runMigration (s : St) (m : Migration) : St × Option GoErr :=
  if m.id = "" then (s, some .missingID)
  else if migrationDidRun s m then (s, none)
  else
    let s1 : St := { s with forwards := s.forwards ++ [m.id] }
    if m.migrate then
      insertMigration { s1 with pending := s1.pending ++ [m.id] } m.id
    else (s1, some (.migrateFailed m.id))

/-- The registry loop of `migrate`: run each migration, breaking after the one
whose identifier equals a non-empty `migrationID`. -/
def migrateLoop (migrationID : String) : List Migration → St → St × Option GoErr
  | [], s => (s, none)
  | m :: rest, s =>
    match runMigration s m with
    | (s1, some e) => (s1, some e)
    | (s1, none) =>
      if migrationID ≠ "" ∧ m.id = migrationID then (s1, none)
      else migrateLoop migrationID rest s1

/-- The session body of `migrate`, after the table was ensured: the
init-schema shortcut when applicable, otherwise the registry loop; on error
the deferred close rolls the session back, otherwise it is committed. -/
def migrateSession (x : Xormigrate) (migrationID : String) (s : St) : St × Option GoErr :=
  match x.initSchema with
  | some initOk =>
    if canInitializeSchema s then
      match runInitSchema x initOk s with
      | (s2, some e) => (rollbackTx s2, some e)
      | (s2, none) => (commitTx s2, none)
    else
      match migrateLoop migrationID x.migrations s with
      | (s2, some e) => (rollbackTx s2, some e)
      | (s2, none) => (commitTx s2, none)
  | none =>
    match migrateLoop migrationID x.migrations s with
    | (s2, some e) => (rollbackTx s2, some e)
    | (s2, none) => (commitTx s2, none)

/-- Function `migrate` of the source: the shared procedure behind `Migrate`
and `MigrateTo`. -/
def migrate (x : Xormigrate) (migrationID : String) (s : St) : St × Option GoErr :=
  if !(hasMigrations x) then (s, some .noMigrationDefined)
  else
    match checkReservedID x with
    | some e => (s, some e)
    | none =>
      match checkDuplicatedID x with
      | some e => (s, some e)
      | none =>
        match createMigrationTableIfNotExists s with
        | (s1, some e) => (s1, some e)
        | (s1, none) => migrateSession x migrationID s1

/-- Method `Migrate` of the source: target the last registry identifier. -/
def Migrate (x : Xormigrate) (s : St) : St × Option GoErr :=
  if !(hasMigrations x) then (s, some .noMigrationDefined)
  else
    migrate x
      (match x.migrations.getLast? with
       | some m => m.id
       | none => "") s

/-- Method `MigrateTo` of the source. -/
def MigrateTo (x : Xormigrate) (migrationID : String) (s : St) : St × Option GoErr :=
  match checkIDExist x migrationID with
  | some e => (s, some e)
  | none => migrate x migrationID s

/-- Function `rollbackMigration` of the source (lower-case): fail when the
reverse action is nil; otherwise invoke it on the session and, on success,
delete the row through the engine (`x.db.In("id", m.ID).Delete`). -/
def rollbackMigration (s : St) (m : Migration) : St × Option GoErr :=
  match m.rollback with
  | none => (s, some .rollbackImpossible)
  | some rbOk =>
    let s1 : St := { s with reverses := s.reverses ++ [m.id] }
    if rbOk then
      if s1.db.deleteErr then (s1, some .dbErr)
      else
        ({ s1 with
            db := { s1.db with
                     records := s1.db.records.filter (fun r => !decide (r = m.id)) } },
         none)
    else (s1, some (.rollbackFailed m.id))

/-- Method `RollbackMigration` of the source: one rollback inside its own
session. -/
def RollbackMigration (s : St) (m : Migration) : St × Option GoErr :=
  match rollbackMigration s m with
  | (s1, some e) => (rollbackTx s1, some e)
  | (s1, none) => (commitTx s1, none)

/-- The downward registry loop of `RollbackTo`, acting on the reversed list:
break at the target, roll back each migration that ran, skip the rest. -/
def rollbackLoop (migrationID : String) : List Migration → St → St × Option GoErr
  | [], s => (s, none)
  | m :: rest, s =>
    if m.id = migrationID then (s, none)
    else if migrationDidRun s m then
      match rollbackMigration s m with
      | (s1, some e) => (s1, some e)
      | (s1, none) => rollbackLoop migrationID rest s1
    else rollbackLoop migrationID rest s

/-- Method `RollbackTo` of the source. -/
def RollbackTo (x : Xormigrate) (migrationID : String) (s : St) : St × Option GoErr :=
  if x.migrations.isEmpty then (s, some .noMigrationDefined)
  else
    match checkIDExist x migrationID with
    | some e => (s, some e)
    | none =>
      match rollbackLoop migrationID x.migrations.reverse s with
      | (s1, some e) => (rollbackTx s1, some e)
      | (s1, none) => (commitTx s1, none)

/-- Modelled from the spec: the unknown-history check of the canonical
variant, which src/xormigrate.go lacks — fetch the applied identifiers and
report whether any of them is outside the set made of the sentinel and the
registry identifiers. -/
def unknownMigrationsHaveHappened (x : Xormigrate) (s : St) : Bool :=
  s.db.records.any (fun pid =>
    !(decide (pid = initSchemaMigrationId)
      || x.migrations.any (fun m => decide (m.id = pid))))

/-- Modelled from the spec: the shared migrate procedure with the
unknown-history validation flag, which src/xormigrate.go lacks — after the
tracking storage is ensured, when validation is enabled and a persisted
identifier falls outside the sentinel and the registry, fail with
`UnknownPastMigration` and abort the scope without applying anything;
otherwise continue exactly as `migrate` of the source does. -/
def migrateWithValidation (x : Xormigrate) (validateUnknownMigrations : Bool)
    (migrationID : String) (s : St) : St × Option GoErr :=
  if !(hasMigrations x) then (s, some .noMigrationDefined)
  else
    match checkReservedID x with
    | some e => (s, some e)
    | none =>
      match checkDuplicatedID x with
      | some e => (s, some e)
      | none =>
        match createMigrationTableIfNotExists s with
        | (s1, some e) => (s1, some e)
        | (s1, none) =>
          if validateUnknownMigrations ∧ unknownMigrationsHaveHappened x s1 then
            (rollbackTx s1, some .unknownPastMigration)
          else migrateSession x migrationID s1

/-- A healthy tracking storage with the given committed rows. -/
def initSt (records : List String) : St :=
  { db := { records := records, countErr := false, insertErr := false,
            deleteErr := false, syncErr := false },
    schema := [], pending := [], ensured := false,
    forwards := [], inits := 0, reverses := [] }

/-- The identifiers of the list entries that would run (are not yet applied)
from state `s`, in list order. -/
def ranIds (s : St) (migs : List Migration) : List String :=
  (migs.filter (fun m => !(migrationDidRun s m))).map Migration.id

/-- The identifiers of the list entries that are applied from state `s`, in
list order. -/
def rolledIds (s : St) (migs : List Migration) : List String :=
  (migs.filter (fun m => migrationDidRun s m)).map Migration.id

/-- A state extension: the second state has the records of the first plus some
suffix, the database failure switches unchanged, and the tracking table flag
unchanged.  Every step of the migration loop extends the state. -/
def Extends (s s2 : St) : Prop :=
  (∃ δ, s2.db.records = s.db.records ++ δ) ∧
  s2.db.countErr = s.db.countErr ∧
  s2.db.insertErr = s.db.insertErr ∧
  s2.db.syncErr = s.db.syncErr ∧
  s2.db.deleteErr = s.db.deleteErr ∧
  s2.ensured = s.ensured

theorem checkReservedIDAux_eq_none_iff (migs : List Migration) :
    checkReservedIDAux migs = none ↔ ∀ m ∈ migs, m.id ≠ initSchemaMigrationId := by
  induction migs with
  | nil => simp [checkReservedIDAux]
  | cons m rest ih =>
    by_cases h : m.id = initSchemaMigrationId
    · simp [checkReservedIDAux, h]
    · simp [checkReservedIDAux, h, ih]

theorem checkReservedIDAux_of_mem (migs : List Migration)
    (h : ∃ m ∈ migs, m.id = initSchemaMigrationId) :
    checkReservedIDAux migs = some (.reservedID initSchemaMigrationId) := by
  induction migs with
  | nil => simp at h
  | cons m rest ih =>
    by_cases hm : m.id = initSchemaMigrationId
    · simp [checkReservedIDAux, hm]
    · obtain ⟨m', hm', he⟩ := h
      rcases List.mem_cons.mp hm' with rfl | hmem
      · exact absurd he hm
      · simp only [checkReservedIDAux, if_neg hm]
        exact ih ⟨m', hmem, he⟩

theorem checkDuplicatedIDAux_eq_none_iff (migs : List Migration) (seen : List String) :
    checkDuplicatedIDAux migs seen = none ↔
      (migs.map Migration.id).Nodup ∧ ∀ i ∈ migs.map Migration.id, i ∉ seen := by
  induction migs generalizing seen with
  | nil => simp [checkDuplicatedIDAux]
  | cons m rest ih =>
    by_cases h : m.id ∈ seen
    · simp only [checkDuplicatedIDAux, if_pos h]
      constructor
      · intro he; exact absurd he (by simp)
      · rintro ⟨-, hall⟩
        exact absurd h (hall m.id (by simp))
    · simp only [checkDuplicatedIDAux, if_neg h, ih, List.map_cons, List.nodup_cons,
        List.mem_cons, List.mem_map]
      constructor
      · rintro ⟨hnd, hall⟩
        refine ⟨⟨?_, hnd⟩, ?_⟩
        · rintro ⟨m', hm', he⟩
          exact (hall m.id ⟨m', hm', he⟩) (by simp)
        · rintro i (rfl | hi)
          · exact h
          · exact fun hs => (hall i hi) (by simp [hs])
      · rintro ⟨⟨hnm, hnd⟩, hall⟩
        refine ⟨hnd, ?_⟩
        rintro i hi hmem
        rcases hmem with rfl | hs
        · exact hnm hi
        · exact (hall i (Or.inr hi)) hs

theorem checkDuplicatedIDAux_shape (migs : List Migration) (seen : List String) :
    checkDuplicatedIDAux migs seen = none ∨
      ∃ d, checkDuplicatedIDAux migs seen = some (.duplicatedID d) := by
  induction migs generalizing seen with
  | nil => exact Or.inl rfl
  | cons m rest ih =>
    by_cases h : m.id ∈ seen
    · exact Or.inr ⟨m.id, by simp [checkDuplicatedIDAux, h]⟩
    · simpa [checkDuplicatedIDAux, h] using ih (m.id :: seen)

theorem checkIDExistAux_eq_none (migs : List Migration) (tgt : String)
    (h : ∃ m ∈ migs, m.id = tgt) : checkIDExistAux tgt migs = none := by
  induction migs with
  | nil => simp at h
  | cons m rest ih =>
    by_cases hm : m.id = tgt
    · simp [checkIDExistAux, hm]
    · obtain ⟨m', hm', he⟩ := h
      rcases List.mem_cons.mp hm' with rfl | hmem
      · exact absurd he hm
      · simp only [checkIDExistAux, if_neg hm]
        exact ih ⟨m', hmem, he⟩

theorem checkIDExistAux_eq_some (migs : List Migration) (tgt : String)
    (h : ∀ m ∈ migs, m.id ≠ tgt) : checkIDExistAux tgt migs = some .migrationIDDoesNotExist := by
  induction migs with
  | nil => rfl
  | cons m rest ih =>
    simp only [checkIDExistAux, if_neg (h m (by simp))]
    exact ih fun m' hm' => h m' (by simp [hm'])

theorem hasMigrations_of_ne_nil (x : Xormigrate) (h : x.migrations ≠ []) :
    hasMigrations x = true := by
  cases hx : x.migrations with
  | nil => exact absurd hx h
  | cons m rest => simp [hasMigrations, hx]

theorem hasMigrations_of_initSchema (x : Xormigrate) (b : Bool) (h : x.initSchema = some b) :
    hasMigrations x = true := by
  simp [hasMigrations, h]

theorem insertMigrations_ok (ids : List String) (s : St) (h : s.db.insertErr = false) :
    insertMigrations s ids =
      ({ s with db := { s.db with records := s.db.records ++ ids } }, none) := by
  induction ids generalizing s with
  | nil => simp [insertMigrations]
  | cons id rest ih =>
    simp only [insertMigrations, insertMigration]
    rw [if_neg (by simp [h])]
    have step := ih { s with db := { s.db with records := s.db.records ++ [id] } } h
    change insertMigrations { s with db := { s.db with records := s.db.records ++ [id] } } rest = _
    rw [step]
    simp [List.append_assoc]

theorem extendsRefl (s : St) : Extends s s :=
  ⟨⟨[], by simp⟩, rfl, rfl, rfl, rfl, rfl⟩

theorem extendsTrans {s1 s2 s3 : St} (h1 : Extends s1 s2) (h2 : Extends s2 s3) :
    Extends s1 s3 := by
  obtain ⟨⟨d1, hd1⟩, a1, b1, c1, e1, f1⟩ := h1
  obtain ⟨⟨d2, hd2⟩, a2, b2, c2, e2, f2⟩ := h2
  exact ⟨⟨d1 ++ d2, by rw [hd2, hd1, List.append_assoc]⟩, a2.trans a1, b2.trans b1,
    c2.trans c1, e2.trans e1, f2.trans f1⟩

theorem mem_records_of_extends {s s2 : St} {a : String} (h : Extends s s2)
    (ha : a ∈ s.db.records) : a ∈ s2.db.records := by
  obtain ⟨⟨d, hd⟩, -⟩ := h
  rw [hd]
  exact List.mem_append_left d ha

theorem runMigration_extends (s : St) (m : Migration) :
    Extends s (runMigration s m).1 := by
  unfold runMigration insertMigration
  split
  · exact extendsRefl s
  · split
    · exact extendsRefl s
    · split
      · dsimp only
        split
        · exact ⟨⟨[], by simp⟩, rfl, rfl, rfl, rfl, rfl⟩
        · exact ⟨⟨[m.id], rfl⟩, rfl, rfl, rfl, rfl, rfl⟩
      · exact ⟨⟨[], by simp⟩, rfl, rfl, rfl, rfl, rfl⟩

theorem migrateLoop_extends (tgt : String) (migs : List Migration) (s : St) :
    Extends s (migrateLoop tgt migs s).1 := by
  induction migs generalizing s with
  | nil => exact extendsRefl s
  | cons m rest ih =>
    unfold migrateLoop
    have hx := runMigration_extends s m
    rcases hE : runMigration s m with ⟨s1, e⟩
    rw [hE] at hx
    cases e with
    | some err => exact hx
    | none =>
      show Extends s (if tgt ≠ "" ∧ m.id = tgt then (s1, none) else migrateLoop tgt rest s1).1
      split
      · exact hx
      · exact extendsTrans hx (ih s1)

theorem runMigration_ok (s : St) (m : Migration) (s1 : St)
    (h : runMigration s m = (s1, none)) :
    m.id ≠ "" ∧ m.id ∈ s1.db.records := by
  simp only [runMigration] at h
  split at h
  next h1 => simp at h
  next h1 =>
    split at h
    next h2 =>
      injection h with ha hb
      subst ha
      refine ⟨h1, ?_⟩
      unfold migrationDidRun at h2
      split at h2
      · simp at h2
      · exact of_decide_eq_true h2
    next h2 =>
      split at h
      next h3 =>
        simp only [insertMigration] at h
        split at h
        next h4 => simp at h
        next h4 =>
          injection h with ha hb
          subst ha
          exact ⟨h1, by simp⟩
      next h3 => simp at h

theorem runMigration_skip (s : St) (m : Migration)
    (h1 : m.id ≠ "") (h2 : migrationDidRun s m = true) :
    runMigration s m = (s, none) := by
  simp [runMigration, h1, h2]

theorem migrateLoop_skip (tgt : String) (migs : List Migration) (s : St)
    (hids : ∀ m ∈ migs, m.id ≠ "")
    (happ : ∀ m ∈ migs, migrationDidRun s m = true) :
    migrateLoop tgt migs s = (s, none) := by
  induction migs with
  | nil => rfl
  | cons m rest ih =>
    unfold migrateLoop
    rw [runMigration_skip s m (hids m (by simp)) (happ m (by simp))]
    show (if tgt ≠ "" ∧ m.id = tgt then (s, none) else migrateLoop tgt rest s) = (s, none)
    split
    · rfl
    · exact ih (fun m2 hm2 => hids m2 (by simp [hm2])) (fun m2 hm2 => happ m2 (by simp [hm2]))

theorem migrationDidRun_insert (s : St) (a : String) (P F : List String) (m : Migration)
    (h : s.db.countErr = true ∨ m.id ≠ a) :
    migrationDidRun
      { s with
          db := { s.db with records := s.db.records ++ [a] },
          pending := P, forwards := F } m
      = migrationDidRun s m := by
  unfold migrationDidRun
  rcases h with hc | hne
  · simp [hc]
  · by_cases hc : s.db.countErr = true
    · simp [hc]
    · simp only [Bool.not_eq_true] at hc
      simp only [hc, Bool.false_eq_true, if_neg, ite_false]
      rw [decide_eq_decide]
      simp [hne]

theorem ranIds_congr (migs : List Migration) (s s2 : St)
    (h : ∀ m ∈ migs, migrationDidRun s2 m = migrationDidRun s m) :
    ranIds s2 migs = ranIds s migs := by
  unfold ranIds
  rw [List.filter_congr (fun m hm => by rw [h m hm])]

theorem runMigration_run (s : St) (m : Migration)
    (h1 : m.id ≠ "") (hd : migrationDidRun s m = false) (h3 : m.migrate = true)
    (hIns : s.db.insertErr = false) :
    runMigration s m =
      ({ s with
          db := { s.db with records := s.db.records ++ [m.id] },
          pending := s.pending ++ [m.id],
          forwards := s.forwards ++ [m.id] }, none) := by
  simp [runMigration, h1, hd, h3, insertMigration, hIns]

theorem migrateLoop_upto (tgt : String) (pre : List Migration) (t : Migration)
    (post : List Migration) (s : St)
    (hids : ∀ m ∈ pre ++ [t], m.id ≠ "")
    (hok : ∀ m ∈ pre ++ [t], m.migrate = true)
    (hIns : s.db.insertErr = false)
    (hpre : ∀ m ∈ pre, m.id ≠ tgt)
    (ht : t.id = tgt) (htne : tgt ≠ "")
    (hinv : s.db.countErr = true ∨ ((pre ++ [t]).map Migration.id).Nodup) :
    migrateLoop tgt (pre ++ t :: post) s =
      ({ s with
          db := { s.db with records := s.db.records ++ ranIds s (pre ++ [t]) },
          pending := s.pending ++ ranIds s (pre ++ [t]),
          forwards := s.forwards ++ ranIds s (pre ++ [t]) }, none) := by
  induction pre generalizing s with
  | nil =>
    by_cases hd : migrationDidRun s t = true
    · show migrateLoop tgt (t :: post) s = _
      unfold migrateLoop
      rw [runMigration_skip s t (hids t (by simp)) hd]
      show (if tgt ≠ "" ∧ t.id = tgt then (s, none) else migrateLoop tgt post s) = _
      rw [if_pos ⟨htne, ht⟩]
      have hr : ranIds s ([] ++ [t]) = [] := by simp [ranIds, hd]
      rw [hr]
      simp
    · have hd2 : migrationDidRun s t = false := by simpa using hd
      show migrateLoop tgt (t :: post) s = _
      unfold migrateLoop
      rw [runMigration_run s t (hids t (by simp)) hd2 (hok t (by simp)) hIns]
      show (if tgt ≠ "" ∧ t.id = tgt then _ else _) = _
      rw [if_pos ⟨htne, ht⟩]
      have hr : ranIds s ([] ++ [t]) = [t.id] := by simp [ranIds, hd2]
      rw [hr]
  | cons m pre2 ih =>
    have hmt : m.id ≠ tgt := hpre m (by simp)
    have hids2 : ∀ m2 ∈ pre2 ++ [t], m2.id ≠ "" := by
      intro m2 hm2
      refine hids m2 ?_
      simp only [List.cons_append, List.mem_cons]
      exact Or.inr hm2
    have hok2 : ∀ m2 ∈ pre2 ++ [t], m2.migrate = true := by
      intro m2 hm2
      refine hok m2 ?_
      simp only [List.cons_append, List.mem_cons]
      exact Or.inr hm2
    have hpre2 : ∀ m2 ∈ pre2, m2.id ≠ tgt := fun m2 hm2 => hpre m2 (by simp [hm2])
    have hndtail : ((m :: pre2) ++ [t]).map Migration.id
        = m.id :: (pre2 ++ [t]).map Migration.id := by simp
    by_cases hd : migrationDidRun s m = true
    · show migrateLoop tgt (m :: (pre2 ++ t :: post)) s = _
      unfold migrateLoop
      rw [runMigration_skip s m (hids m (by simp)) hd]
      show (if tgt ≠ "" ∧ m.id = tgt then (s, none)
            else migrateLoop tgt (pre2 ++ t :: post) s) = _
      rw [if_neg (fun hc => hmt hc.2)]
      have hinv2 : s.db.countErr = true ∨ ((pre2 ++ [t]).map Migration.id).Nodup := by
        rcases hinv with hc | hnd
        · exact Or.inl hc
        · rw [hndtail] at hnd
          exact Or.inr hnd.of_cons
      rw [ih s hids2 hok2 hIns hpre2 hinv2]
      have hr : ranIds s ((m :: pre2) ++ [t]) = ranIds s (pre2 ++ [t]) := by
        simp [ranIds, hd]
      rw [hr]
    · have hd2 : migrationDidRun s m = false := by simpa using hd
      show migrateLoop tgt (m :: (pre2 ++ t :: post)) s = _
      unfold migrateLoop
      rw [runMigration_run s m (hids m (by simp)) hd2 (hok m (by simp)) hIns]
      show (if tgt ≠ "" ∧ m.id = tgt then _ else _) = _
      rw [if_neg (fun hc => hmt hc.2)]
      have hinv2 : s.db.countErr = true ∨ ((pre2 ++ [t]).map Migration.id).Nodup := by
        rcases hinv with hc | hnd
        · exact Or.inl hc
        · rw [hndtail] at hnd
          exact Or.inr hnd.of_cons
      rw [ih { s with
          db := { s.db with records := s.db.records ++ [m.id] },
          pending := s.pending ++ [m.id],
          forwards := s.forwards ++ [m.id] } hids2 hok2 hIns hpre2 hinv2]
      have hcong : ranIds { s with
          db := { s.db with records := s.db.records ++ [m.id] },
          pending := s.pending ++ [m.id],
          forwards := s.forwards ++ [m.id] } (pre2 ++ [t]) = ranIds s (pre2 ++ [t]) := by
        apply ranIds_congr
        intro m2 hm2
        apply migrationDidRun_insert
        rcases hinv with hc | hnd
        · exact Or.inl hc
        · rw [hndtail] at hnd
          have hnotmem := (List.nodup_cons.mp hnd).1
          refine Or.inr fun habs => hnotmem ?_
          exact habs ▸ List.mem_map_of_mem Migration.id hm2
      have hr : ranIds s ((m :: pre2) ++ [t]) = m.id :: ranIds s (pre2 ++ [t]) := by
        simp [ranIds, hd2]
      rw [hcong, hr]
      simp [List.append_assoc]

theorem ranIds_ensured (s : St) (b : Bool) (migs : List Migration) :
    ranIds { s with ensured := b } migs = ranIds s migs := rfl

theorem migrate_loop_ok (x : Xormigrate) (tgt : String) (s : St) (S : St)
    (hHas : hasMigrations x = true)
    (hRes : checkReservedID x = none)
    (hDup : checkDuplicatedID x = none)
    (hSync : s.db.syncErr = false)
    (hInit : x.initSchema = none)
    (hloop : migrateLoop tgt x.migrations { s with ensured := true } = (S, none)) :
    migrate x tgt s = (commitTx S, none) := by
  simp [migrate, hHas, hRes, hDup, createMigrationTableIfNotExists, hSync,
    migrateSession, hInit, hloop]

theorem migrate_loop_path (x : Xormigrate) (tgt : String) (s : St)
    (hHas : hasMigrations x = true)
    (hRes : checkReservedID x = none)
    (hDup : checkDuplicatedID x = none)
    (hSync : s.db.syncErr = false)
    (hInit : x.initSchema = none) :
    migrate x tgt s =
      (match migrateLoop tgt x.migrations { s with ensured := true } with
       | (s2, some e) => (rollbackTx s2, some e)
       | (s2, none) => (commitTx s2, none)) := by
  simp [migrate, hHas, hRes, hDup, createMigrationTableIfNotExists, hSync,
    migrateSession, hInit]

/-- C1: the code under src has no transactional-mode switch: `migrate` always
opens one session for the forward actions, but `insertMigration` writes the
tracking record through the engine (`x.db.Insert`), outside that session.  On
registry [A, B, C] where the forward action of B fails, the run errors, the
schema effect of A is discarded with the session, yet the tracking storage
keeps exactly one record, for A — there is no configuration under which it
holds zero records, refuting the zero-records half of the claim. -/
theorem C1_failed_run_keeps_one_record :
    (Migrate ⟨[⟨"A", true, none⟩, ⟨"B", false, none⟩, ⟨"C", true, none⟩], none⟩
        (initSt [])).2 = some (GoErr.migrateFailed "B") ∧
    (Migrate ⟨[⟨"A", true, none⟩, ⟨"B", false, none⟩, ⟨"C", true, none⟩], none⟩
        (initSt [])).1.db.records = ["A"] ∧
    (Migrate ⟨[⟨"A", true, none⟩, ⟨"B", false, none⟩, ⟨"C", true, none⟩], none⟩
        (initSt [])).1.schema = [] ∧
    (Migrate ⟨[⟨"A", true, none⟩, ⟨"B", false, none⟩, ⟨"C", true, none⟩], none⟩
        (initSt [])).1.forwards = ["A", "B"] := by
  refine ⟨rfl, rfl, rfl, rfl⟩

/-- C2: with unknown-history validation enabled (modelled from the spec, the
flag being absent from src) and a persisted identifier that is neither the
sentinel nor any registry identifier, the run fails with
`UnknownPastMigration` and applies nothing: the records, forward log, init
count and schema are all left as they were. -/
theorem C2_unknown_history_guard (x : Xormigrate) (mid z : String) (s : St)
    (hHas : hasMigrations x = true)
    (hRes : checkReservedID x = none)
    (hDup : checkDuplicatedID x = none)
    (hSync : s.db.syncErr = false)
    (hz : z ∈ s.db.records)
    (hzs : z ≠ initSchemaMigrationId)
    (hzr : ∀ m ∈ x.migrations, m.id ≠ z) :
    migrateWithValidation x true mid s =
      ({ s with ensured := true, pending := [] }, some GoErr.unknownPastMigration) := by
  have hu : unknownMigrationsHaveHappened x { s with ensured := true } = true := by
    unfold unknownMigrationsHaveHappened
    rw [List.any_eq_true]
    refine ⟨z, hz, ?_⟩
    simp only [Bool.not_eq_true', Bool.or_eq_false_iff, decide_eq_false_iff_not,
      List.any_eq_false, decide_eq_true_eq]
    exact ⟨hzs, fun m hm => hzr m hm⟩
  simp [migrateWithValidation, hHas, hRes, hDup, createMigrationTableIfNotExists,
    hSync, hu, rollbackTx]

/-- Witness for C2 at a concrete input. -/
theorem C2_unknown_history_guard_witness :
    migrateWithValidation ⟨[⟨"A", true, none⟩], none⟩ true "A" (initSt ["Z"]) =
      ({ initSt ["Z"] with ensured := true, pending := [] },
       some GoErr.unknownPastMigration) :=
  C2_unknown_history_guard ⟨[⟨"A", true, none⟩], none⟩ "A" "Z" (initSt ["Z"])
    rfl (by decide) (by decide) rfl (by decide) (by decide) (by decide)

/-- C3: with an initializer registered and succeeding, and an empty tracking
storage, Migrate invokes the initializer exactly once, records the sentinel
followed by every registry identifier, invokes no individual forward action,
and returns success. -/
theorem C3_fresh_schema_shortcut (x : Xormigrate) (s : St)
    (hInit : x.initSchema = some true)
    (hRes : checkReservedID x = none)
    (hDup : checkDuplicatedID x = none)
    (hSync : s.db.syncErr = false)
    (hCnt : s.db.countErr = false)
    (hIns : s.db.insertErr = false)
    (hEmpty : s.db.records = []) :
    (Migrate x s).2 = none ∧
    (Migrate x s).1.inits = s.inits + 1 ∧
    (Migrate x s).1.forwards = s.forwards ∧
    (Migrate x s).1.db.records = initSchemaMigrationId :: x.migrations.map Migration.id := by
  have hHas := hasMigrations_of_initSchema x true hInit
  have hCI : canInitializeSchema { s with ensured := true } = true := by
    simp [canInitializeSchema, migrationDidRun, hCnt, hEmpty]
  simp [Migrate, migrate, migrateSession, hHas, hRes, hDup,
    createMigrationTableIfNotExists, hSync, hInit, hCI, runInitSchema,
    insertMigration, hIns, insertMigrations_ok, commitTx, hEmpty]

/-- Witness for C3 at a concrete input. -/
theorem C3_fresh_schema_shortcut_witness :
    (Migrate ⟨[⟨"A", true, none⟩, ⟨"B", true, none⟩], some true⟩ (initSt [])).2 = none ∧
    (Migrate ⟨[⟨"A", true, none⟩, ⟨"B", true, none⟩], some true⟩ (initSt [])).1.inits
        = (initSt []).inits + 1 ∧
    (Migrate ⟨[⟨"A", true, none⟩, ⟨"B", true, none⟩], some true⟩ (initSt [])).1.forwards
        = (initSt []).forwards ∧
    (Migrate ⟨[⟨"A", true, none⟩, ⟨"B", true, none⟩], some true⟩ (initSt [])).1.db.records
        = initSchemaMigrationId
            :: List.map Migration.id [⟨"A", true, none⟩, ⟨"B", true, none⟩] :=
  C3_fresh_schema_shortcut ⟨[⟨"A", true, none⟩, ⟨"B", true, none⟩], some true⟩
    (initSt []) rfl (by decide) (by decide) rfl rfl rfl rfl

/-- C6: the rollback primitive; when the migration has no reverse action the
call fails with `RollbackImpossible`, the reverse log and the records being
untouched; with a reverse action, the action is invoked, and the applied
record is deleted exactly when the action succeeds. -/
theorem C6_rollback_primitive (m : Migration) (s : St) (hDel : s.db.deleteErr = false) :
    (m.rollback = none →
        RollbackMigration s m = ({ s with pending := [] }, some GoErr.rollbackImpossible)) ∧
    (m.rollback = some true →
        RollbackMigration s m =
          ({ s with
              reverses := s.reverses ++ [m.id],
              schema := s.schema ++ s.pending,
              pending := [],
              db := { s.db with
                       records := s.db.records.filter (fun r => !decide (r = m.id)) } },
           none)) ∧
    (m.rollback = some false →
        RollbackMigration s m =
          ({ s with
              reverses := s.reverses ++ [m.id],
              pending := [] },
           some (GoErr.rollbackFailed m.id))) := by
  refine ⟨fun h => ?_, fun h => ?_, fun h => ?_⟩ <;>
    simp [RollbackMigration, rollbackMigration, h, hDel, rollbackTx, commitTx]

/-- Witness for C6 at a concrete input. -/
theorem C6_rollback_primitive_witness :
    (RollbackMigration (initSt ["A", "B"]) ⟨"A", true, some true⟩).2 = none ∧
    (RollbackMigration (initSt ["A", "B"]) ⟨"A", true, some true⟩).1.db.records = ["B"] ∧
    (RollbackMigration (initSt ["A", "B"]) ⟨"A", true, some true⟩).1.reverses = ["A"] := by
  have h := (C6_rollback_primitive ⟨"A", true, some true⟩ (initSt ["A", "B"]) rfl).2.1 rfl
  rw [h]
  exact ⟨rfl, by decide, rfl⟩

/-- C7: a registry holding the sentinel identifier makes `Migrate`, the shared
`migrate`, and `MigrateTo` (for a target that exists) fail with the reserved
error, the state untouched — so before any forward action and before the
tracking table is ensured; a sentinel-free registry with a duplicate fails
with the duplicated error and applies nothing. -/
theorem C7_validation_precedes_execution (x : Xormigrate) (s : St) (tgt : String) :
    ((∃ m ∈ x.migrations, m.id = initSchemaMigrationId) →
        Migrate x s = (s, some (GoErr.reservedID initSchemaMigrationId)) ∧
        migrate x tgt s = (s, some (GoErr.reservedID initSchemaMigrationId)) ∧
        (checkIDExist x tgt = none →
          MigrateTo x tgt s = (s, some (GoErr.reservedID initSchemaMigrationId)))) ∧
    ((∀ m ∈ x.migrations, m.id ≠ initSchemaMigrationId) →
      ¬(x.migrations.map Migration.id).Nodup →
        ∃ d, Migrate x s = (s, some (GoErr.duplicatedID d)) ∧
             migrate x tgt s = (s, some (GoErr.duplicatedID d))) := by
  constructor
  · intro h
    have hne : x.migrations ≠ [] := by
      obtain ⟨m, hm, -⟩ := h
      exact List.ne_nil_of_mem hm
    have hHas := hasMigrations_of_ne_nil x hne
    have hRes : checkReservedID x = some (.reservedID initSchemaMigrationId) :=
      checkReservedIDAux_of_mem _ h
    refine ⟨?_, ?_, fun hEx => ?_⟩
    · simp [Migrate, migrate, hHas, hRes]
    · simp [migrate, hHas, hRes]
    · simp [MigrateTo, hEx, migrate, hHas, hRes]
  · intro hs hdup
    have hRes : checkReservedID x = none := by
      rw [checkReservedID, checkReservedIDAux_eq_none_iff]
      exact hs
    have hne : x.migrations ≠ [] := by
      intro h0
      rw [h0] at hdup
      simp at hdup
    have hHas := hasMigrations_of_ne_nil x hne
    rcases checkDuplicatedIDAux_shape x.migrations [] with hnone | ⟨d, hd⟩
    · rw [checkDuplicatedIDAux_eq_none_iff] at hnone
      exact absurd hnone.1 hdup
    · refine ⟨d, ?_, ?_⟩
      · simp [Migrate, migrate, hHas, hRes, checkDuplicatedID, hd]
      · simp [migrate, hHas, hRes, checkDuplicatedID, hd]

/-- Witness for C7 at concrete inputs: a sentinel registry and a duplicated
registry. -/
theorem C7_validation_precedes_execution_witness :
    Migrate ⟨[⟨"SCHEMA_INIT", true, none⟩], none⟩ (initSt []) =
      (initSt [], some (GoErr.reservedID initSchemaMigrationId)) ∧
    ∃ d, Migrate ⟨[⟨"A", true, none⟩, ⟨"A", true, none⟩], none⟩ (initSt []) =
      (initSt [], some (GoErr.duplicatedID d)) := by
  constructor
  · exact ((C7_validation_precedes_execution ⟨[⟨"SCHEMA_INIT", true, none⟩], none⟩
      (initSt []) "").1 ⟨⟨"SCHEMA_INIT", true, none⟩, by simp, rfl⟩).1
  · obtain ⟨d, hd, -⟩ := (C7_validation_precedes_execution
      ⟨[⟨"A", true, none⟩, ⟨"A", true, none⟩], none⟩ (initSt []) "").2
      (by decide) (by decide)
    exact ⟨d, hd⟩

theorem rollbackMigration_ok (s : St) (m : Migration) (hrb : m.rollback = some true)
    (hDel : s.db.deleteErr = false) :
    rollbackMigration s m =
      ({ s with
          reverses := s.reverses ++ [m.id],
          db := { s.db with
                   records := s.db.records.filter (fun r => !decide (r = m.id)) } },
       none) := by
  simp [rollbackMigration, hrb, hDel]

theorem migrationDidRun_delete (s : St) (a : String) (R : List String) (m : Migration)
    (hne : m.id ≠ a) :
    migrationDidRun
      { s with
          reverses := R,
          db := { s.db with
                   records := s.db.records.filter (fun r => !decide (r = a)) } } m
      = migrationDidRun s m := by
  unfold migrationDidRun
  by_cases hc : s.db.countErr = true
  · simp [hc]
  · simp only [Bool.not_eq_true] at hc
    simp only [hc, Bool.false_eq_true, if_neg, ite_false]
    rw [decide_eq_decide]
    simp [List.mem_filter, hne]

theorem rolledIds_congr (migs : List Migration) (s s2 : St)
    (h : ∀ m ∈ migs, migrationDidRun s2 m = migrationDidRun s m) :
    rolledIds s2 migs = rolledIds s migs := by
  unfold rolledIds
  rw [List.filter_congr (fun m hm => h m hm)]

theorem rollbackLoop_run (mid : String) (ms : List Migration) (t : Migration)
    (rest : List Migration) (s : St)
    (hms : ∀ m ∈ ms, m.id ≠ mid) (ht : t.id = mid)
    (hCnt : s.db.countErr = false) (hDel : s.db.deleteErr = false)
    (hrb : ∀ m ∈ ms, migrationDidRun s m = true → m.rollback = some true)
    (hnd : (ms.map Migration.id).Nodup) :
    rollbackLoop mid (ms ++ t :: rest) s =
      ({ s with
          reverses := s.reverses ++ rolledIds s ms,
          db := { s.db with
                   records := s.db.records.filter
                     (fun r => !decide (r ∈ rolledIds s ms)) } }, none) := by
  induction ms generalizing s with
  | nil =>
    show rollbackLoop mid (t :: rest) s = _
    unfold rollbackLoop
    rw [if_pos ht]
    simp [rolledIds]
  | cons m ms2 ih =>
    have hmmid : m.id ≠ mid := hms m (by simp)
    show rollbackLoop mid (m :: (ms2 ++ t :: rest)) s = _
    unfold rollbackLoop
    rw [if_neg hmmid]
    have hmsub : ∀ m2 ∈ ms2, m2.id ≠ mid := fun m2 hm2 => hms m2 (by simp [hm2])
    have hnd2 : (m.id :: ms2.map Migration.id).Nodup := by
      rw [← List.map_cons]
      exact hnd
    have hnotmem : m.id ∉ ms2.map Migration.id := (List.nodup_cons.mp hnd2).1
    have hndtail : (ms2.map Migration.id).Nodup := (List.nodup_cons.mp hnd2).2
    have hne2 : ∀ m2 ∈ ms2, m2.id ≠ m.id := by
      intro m2 hm2 habs
      exact hnotmem (habs ▸ List.mem_map_of_mem Migration.id hm2)
    by_cases hd : migrationDidRun s m = true
    · rw [if_pos hd]
      rw [rollbackMigration_ok s m (hrb m (by simp) hd) hDel]
      have hpres : ∀ m2 ∈ ms2,
          migrationDidRun
            { s with
                reverses := s.reverses ++ [m.id],
                db := { s.db with
                         records := s.db.records.filter
                           (fun r => !decide (r = m.id)) } } m2
            = migrationDidRun s m2 := fun m2 hm2 =>
        migrationDidRun_delete s m.id _ m2 (hne2 m2 hm2)
      have hrb2 : ∀ m2 ∈ ms2,
          migrationDidRun
            { s with
                reverses := s.reverses ++ [m.id],
                db := { s.db with
                         records := s.db.records.filter
                           (fun r => !decide (r = m.id)) } } m2 = true →
            m2.rollback = some true := by
        intro m2 hm2 hr
        rw [hpres m2 hm2] at hr
        exact hrb m2 (by simp [hm2]) hr
      show rollbackLoop mid (ms2 ++ t :: rest)
          { s with
              reverses := s.reverses ++ [m.id],
              db := { s.db with
                       records := s.db.records.filter
                         (fun r => !decide (r = m.id)) } } = _
      rw [ih { s with
          reverses := s.reverses ++ [m.id],
          db := { s.db with
                   records := s.db.records.filter
                     (fun r => !decide (r = m.id)) } } hmsub hCnt hDel hrb2 hndtail]
      have hrc : rolledIds
          { s with
              reverses := s.reverses ++ [m.id],
              db := { s.db with
                       records := s.db.records.filter
                         (fun r => !decide (r = m.id)) } } ms2
          = rolledIds s ms2 := rolledIds_congr ms2 s _ hpres
      have hcons : rolledIds s (m :: ms2) = m.id :: rolledIds s ms2 := by
        simp [rolledIds, hd]
      have hrecords : (s.db.records.filter (fun r => !decide (r = m.id))).filter
            (fun r => !decide (r ∈ rolledIds s ms2))
          = s.db.records.filter (fun r => !decide (r ∈ rolledIds s (m :: ms2))) := by
        rw [List.filter_filter]
        apply List.filter_congr
        intro r hr
        rw [hcons]
        by_cases h1 : r = m.id <;> by_cases h2 : r ∈ rolledIds s ms2 <;>
          simp [h1, h2]
      simp only [hrc, hrecords, hcons, List.append_assoc, List.singleton_append]
    · rw [if_neg hd]
      have hd2 : migrationDidRun s m = false := by simpa using hd
      rw [ih s hmsub hCnt hDel (fun m2 hm2 => hrb m2 (by simp [hm2])) hndtail]
      have hcons : rolledIds s (m :: ms2) = rolledIds s ms2 := by
        simp [rolledIds, hd2]
      rw [hcons]

theorem canInit_false_of_ne_nil (s : St) (h : s.db.records ≠ []) :
    canInitializeSchema s = false := by
  unfold canInitializeSchema
  split
  · rfl
  · split
    · rfl
    · simpa using h

theorem canInit_false_records_ne (s : St) (hCnt : s.db.countErr = false)
    (h : canInitializeSchema s = false) : s.db.records ≠ [] := by
  unfold canInitializeSchema at h
  split at h
  next hd =>
    unfold migrationDidRun at hd
    rw [hCnt] at hd
    simp only [Bool.false_eq_true, if_neg, ite_false, decide_eq_true_eq] at hd
    exact List.ne_nil_of_mem hd
  next hd =>
    split at h
    next hc => rw [hCnt] at hc; exact absurd hc (by simp)
    next hc => simpa using h

theorem insertMigrations_ok_inv (ids : List String) (s S : St)
    (h : insertMigrations s ids = (S, none)) :
    S.db.records = s.db.records ++ ids ∧ S.db.countErr = s.db.countErr ∧
    S.db.insertErr = s.db.insertErr ∧ S.db.syncErr = s.db.syncErr ∧
    S.db.deleteErr = s.db.deleteErr ∧ S.ensured = s.ensured := by
  induction ids generalizing s with
  | nil =>
    simp only [insertMigrations] at h
    injection h with h1 h2
    subst h1
    simp
  | cons id rest ih =>
    simp only [insertMigrations, insertMigration] at h
    cases hIns : s.db.insertErr with
    | true => rw [hIns] at h; simp at h
    | false =>
      rw [hIns] at h
      simp only [Bool.false_eq_true, if_neg, ite_false] at h
      have step := ih
        { s with db := { s.db with records := s.db.records ++ [id], insertErr := false } } h
      simpa [List.append_assoc, hIns] using step

theorem runInitSchema_ok_inv (x : Xormigrate) (b : Bool) (s S : St)
    (h : runInitSchema x b s = (S, none)) :
    S.db.records
        = s.db.records ++ [initSchemaMigrationId] ++ x.migrations.map Migration.id ∧
    S.db.countErr = s.db.countErr ∧ S.db.syncErr = s.db.syncErr ∧
    S.ensured = s.ensured := by
  cases b with
  | false => simp [runInitSchema] at h
  | true =>
    simp only [runInitSchema, insertMigration, if_true, ite_true] at h
    cases hIns : s.db.insertErr with
    | true => rw [hIns] at h; simp at h
    | false =>
      rw [hIns] at h
      simp only [Bool.false_eq_true, if_neg, ite_false] at h
      have step := insertMigrations_ok_inv (x.migrations.map Migration.id) _ _ h
      obtain ⟨h1, h2, h3, h4, h5, h6⟩ := step
      refine ⟨?_, by simpa using h2, by simpa using h4, by simpa using h6⟩
      rw [h1]

theorem migrateLoop_ok_all_applied (migs : List Migration) (s S : St) (tgt : String)
    (hnd : (migs.map Migration.id).Nodup)
    (htgt : ∀ (hne : migs ≠ []), tgt = (migs.getLast hne).id)
    (h : migrateLoop tgt migs s = (S, none)) :
    ∀ m ∈ migs, m.id ∈ S.db.records := by
  induction migs generalizing s with
  | nil => intro m hm; cases hm
  | cons m rest ih =>
    have hne : m :: rest ≠ [] := by simp
    have htgt2 := htgt hne
    simp only [migrateLoop] at h
    rcases hE : runMigration s m with ⟨s1, e⟩
    rw [hE] at h
    cases e with
    | some err => simp at h
    | none =>
      have hok := runMigration_ok s m s1 hE
      change (if tgt ≠ "" ∧ m.id = tgt then (s1, none)
              else migrateLoop tgt rest s1) = (S, none) at h
      cases rest with
      | nil =>
        have hmid : tgt = m.id := by simpa using htgt2
        intro m3 hm3
        simp only [List.mem_singleton] at hm3
        subst hm3
        split at h
        · injection h with hS
          exact hS ▸ hok.2
        · change (s1, (none : Option GoErr)) = (S, none) at h
          injection h with hS
          exact hS ▸ hok.2
      | cons m2 rest2 =>
        have hrne : (m2 :: rest2 : List Migration) ≠ [] := by simp
        have htgtr : tgt = ((m2 :: rest2).getLast hrne).id := by
          rw [htgt2, List.getLast_cons hrne]
        have hnd2 : (m.id :: (m2 :: rest2).map Migration.id).Nodup := by
          rw [← List.map_cons]
          exact hnd
        have hmne : m.id ≠ tgt := by
          rw [htgtr]
          have hlastmem := List.getLast_mem hrne
          have hnot := (List.nodup_cons.mp hnd2).1
          intro habs
          exact hnot (habs ▸ List.mem_map_of_mem Migration.id hlastmem)
        rw [if_neg (fun hc => hmne hc.2)] at h
        have hx : Extends s1 S := by
          have hm := migrateLoop_extends tgt (m2 :: rest2) s1
          rw [h] at hm
          exact hm
        intro m3 hm3
        rcases List.mem_cons.mp hm3 with rfl | hm4
        · exact mem_records_of_extends hx hok.2
        · exact ih s1 (List.nodup_cons.mp hnd2).2 (fun hne2 => htgtr) h m3 hm4

theorem migrate_ok_inv (x : Xormigrate) (tgt : String) (s : St)
    (h : (migrate x tgt s).2 = none) :
    hasMigrations x = true ∧ checkReservedID x = none ∧ checkDuplicatedID x = none ∧
    s.db.syncErr = false ∧
    migrate x tgt s = migrateSession x tgt { s with ensured := true } := by
  cases hHas : hasMigrations x with
  | false => simp [migrate, hHas] at h
  | true =>
    cases hRes : checkReservedID x with
    | some e => simp [migrate, hHas, hRes] at h
    | none =>
      cases hDup : checkDuplicatedID x with
      | some e => simp [migrate, hHas, hRes, hDup] at h
      | none =>
        cases hSync : s.db.syncErr with
        | true =>
          simp [migrate, hHas, hRes, hDup, createMigrationTableIfNotExists, hSync] at h
        | false =>
          refine ⟨rfl, rfl, rfl, rfl, ?_⟩
          simp [migrate, hHas, hRes, hDup, createMigrationTableIfNotExists, hSync]

theorem migrate_loop_ok_noinit (x : Xormigrate) (tgt : String) (s : St) (S : St) (b : Bool)
    (hHas : hasMigrations x = true)
    (hRes : checkReservedID x = none)
    (hDup : checkDuplicatedID x = none)
    (hSync : s.db.syncErr = false)
    (hI : x.initSchema = some b)
    (hCI : canInitializeSchema { s with ensured := true } = false)
    (hloop : migrateLoop tgt x.migrations { s with ensured := true } = (S, none)) :
    migrate x tgt s = (commitTx S, none) := by
  simp [migrate, hHas, hRes, hDup, createMigrationTableIfNotExists, hSync,
    migrateSession, hI, hCI, hloop]

theorem commitTx_id (s2 : St) (hPend : s2.pending = []) : commitTx s2 = s2 := by
  unfold commitTx
  rw [hPend, List.append_nil, ← hPend]

theorem Migrate_noop (x : Xormigrate) (s2 : St)
    (hHas : hasMigrations x = true)
    (hRes : checkReservedID x = none)
    (hDup : checkDuplicatedID x = none)
    (hSync : s2.db.syncErr = false)
    (hEns : s2.ensured = true)
    (hPend : s2.pending = [])
    (hCnt : s2.db.countErr = false)
    (hids : ∀ m ∈ x.migrations, m.id ≠ "")
    (happ : ∀ m ∈ x.migrations, m.id ∈ s2.db.records)
    (hCI : ∀ b, x.initSchema = some b → canInitializeSchema s2 = false) :
    Migrate x s2 = (s2, none) := by
  have hs2 : ({ s2 with ensured := true } : St) = s2 := by rw [← hEns]
  have happ2 : ∀ m ∈ x.migrations, migrationDidRun s2 m = true := by
    intro m hm
    simp [migrationDidRun, hCnt, happ m hm]
  have hmig : Migrate x s2
      = migrate x
          (match x.migrations.getLast? with
           | some m => m.id
           | none => "") s2 := by
    simp [Migrate, hHas]
  rw [hmig]
  have hct := commitTx_id s2 hPend
  cases hI : x.initSchema with
  | none =>
    rw [migrate_loop_ok x _ s2 s2 hHas hRes hDup hSync hI
      (by rw [hs2]; exact migrateLoop_skip _ x.migrations s2 hids happ2), hct]
  | some b =>
    rw [migrate_loop_ok_noinit x _ s2 s2 b hHas hRes hDup hSync hI
      (by rw [hs2]; exact hCI b hI)
      (by rw [hs2]; exact migrateLoop_skip _ x.migrations s2 hids happ2), hct]

theorem rolledIds_subset (s : St) (L : List Migration) :
    rolledIds s L ⊆ L.map Migration.id := by
  intro a ha
  unfold rolledIds at ha
  rcases List.mem_map.mp ha with ⟨m, hm, rfl⟩
  exact List.mem_map_of_mem _ ((List.filter_sublist _).subset hm)

/-- C5: for a registry with pairwise distinct identifiers containing the
target, RollbackTo scans the registry from the last entry toward the first,
rolls back exactly the applied migrations among the entries after the target,
in reverse registry order (unapplied ones skipped), deletes exactly their
records, and stops at the target entry, leaving its record and every earlier
record untouched. -/
theorem C5_rollback_to (x : Xormigrate) (tgt : String) (s : St)
    (hnd : (x.migrations.map Migration.id).Nodup)
    (hCnt : s.db.countErr = false) (hDel : s.db.deleteErr = false) :
    ∀ pre t post, x.migrations = pre ++ t :: post → t.id = tgt →
      (∀ m ∈ post, migrationDidRun s m = true → m.rollback = some true) →
      (RollbackTo x tgt s).2 = none ∧
      (RollbackTo x tgt s).1.reverses = s.reverses ++ rolledIds s post.reverse ∧
      (RollbackTo x tgt s).1.db.records =
        s.db.records.filter (fun r => !decide (r ∈ rolledIds s post.reverse)) ∧
      (t.id ∈ (RollbackTo x tgt s).1.db.records ↔ t.id ∈ s.db.records) ∧
      ∀ m ∈ pre, (m.id ∈ (RollbackTo x tgt s).1.db.records ↔ m.id ∈ s.db.records) := by
  intro pre t post hsplit ht hrb
  have htmem : t ∈ x.migrations := by
    rw [hsplit]
    exact List.mem_append_right _ (by simp)
  have hEx : checkIDExist x tgt = none := checkIDExistAux_eq_none _ _ ⟨t, htmem, ht⟩
  have hfalse : x.migrations.isEmpty = false := by
    rw [hsplit]
    simp
  have hrev : x.migrations.reverse = post.reverse ++ t :: pre.reverse := by
    rw [hsplit, List.reverse_append, List.reverse_cons, List.append_assoc,
      List.singleton_append]
  have hmap : x.migrations.map Migration.id
      = pre.map Migration.id ++ (t.id :: post.map Migration.id) := by
    rw [hsplit]
    simp
  have hndall : (pre.map Migration.id ++ (t.id :: post.map Migration.id)).Nodup :=
    hmap ▸ hnd
  have hndparts := List.nodup_append.mp hndall
  have htpost : t.id ∉ post.map Migration.id := (List.nodup_cons.mp hndparts.2.1).1
  have hpostne : ∀ m ∈ post.reverse, m.id ≠ tgt := by
    intro m hm habs
    rw [List.mem_reverse] at hm
    refine htpost ?_
    rw [ht, ← habs]
    exact List.mem_map_of_mem _ hm
  have hndpostrev : (post.reverse.map Migration.id).Nodup := by
    rw [List.map_reverse, List.nodup_reverse]
    exact (List.nodup_cons.mp hndparts.2.1).2
  have hrbrev : ∀ m ∈ post.reverse, migrationDidRun s m = true → m.rollback = some true :=
    fun m hm => hrb m (List.mem_reverse.mp hm)
  have hloop := rollbackLoop_run tgt post.reverse t pre.reverse s hpostne ht hCnt hDel
    hrbrev hndpostrev
  have hrolled_post : ∀ a ∈ rolledIds s post.reverse, a ∈ post.map Migration.id := by
    intro a ha
    have := rolledIds_subset s post.reverse ha
    rw [List.map_reverse, List.mem_reverse] at this
    exact this
  simp only [RollbackTo, hfalse, Bool.false_eq_true, if_false, hEx]
  rw [hrev, hloop]
  refine ⟨rfl, rfl, rfl, ?_, ?_⟩
  · have htid : t.id ∉ rolledIds s post.reverse := fun habs => htpost (hrolled_post _ habs)
    show t.id ∈ s.db.records.filter (fun r => !decide (r ∈ rolledIds s post.reverse))
        ↔ t.id ∈ s.db.records
    simp [List.mem_filter, htid]
  · intro m hm
    have hmid : m.id ∉ rolledIds s post.reverse := by
      intro habs
      exact hndparts.2.2 (List.mem_map_of_mem Migration.id hm)
        (List.mem_cons_of_mem t.id (hrolled_post _ habs))
    show m.id ∈ s.db.records.filter (fun r => !decide (r ∈ rolledIds s post.reverse))
        ↔ m.id ∈ s.db.records
    simp [List.mem_filter, hmid]

/-- Witness for C5 at a concrete input: registry [A, B, C], all applied,
RollbackTo A reverts C then B and keeps the record of A. -/
theorem C5_rollback_to_witness :
    (RollbackTo
        ⟨[⟨"A", true, some true⟩, ⟨"B", true, some true⟩, ⟨"C", true, some true⟩], none⟩
        "A" (initSt ["A", "B", "C"])).2 = none ∧
    (RollbackTo
        ⟨[⟨"A", true, some true⟩, ⟨"B", true, some true⟩, ⟨"C", true, some true⟩], none⟩
        "A" (initSt ["A", "B", "C"])).1.reverses = ["C", "B"] ∧
    (RollbackTo
        ⟨[⟨"A", true, some true⟩, ⟨"B", true, some true⟩, ⟨"C", true, some true⟩], none⟩
        "A" (initSt ["A", "B", "C"])).1.db.records = ["A"] := by
  have h := C5_rollback_to
      ⟨[⟨"A", true, some true⟩, ⟨"B", true, some true⟩, ⟨"C", true, some true⟩], none⟩
      "A" (initSt ["A", "B", "C"]) (by decide) rfl rfl
      [] ⟨"A", true, some true⟩ [⟨"B", true, some true⟩, ⟨"C", true, some true⟩]
      rfl rfl (by decide)
  refine ⟨h.1, ?_, ?_⟩
  · rw [h.2.1]
    decide
  · rw [h.2.2.1]
    decide

/-- C4: for a valid registry (non-empty identifiers, pairwise distinct, none
reserved, no initializer, forward actions succeeding, healthy storage):
if the target is absent, `MigrateTo` fails with `MigrationIDNotFound` and
leaves the state untouched; if the registry splits as pre ++ t :: post with
t the first entry carrying the target identifier, the call succeeds, invokes
exactly the not-yet-applied entries of pre ++ [t] in registry order, records
exactly those, and leaves the applied status of every later entry unchanged. -/
theorem C4_migrate_to_target (x : Xormigrate) (tgt : String) (s : St)
    (hInit : x.initSchema = none)
    (hids : ∀ m ∈ x.migrations, m.id ≠ "")
    (hsent : ∀ m ∈ x.migrations, m.id ≠ initSchemaMigrationId)
    (hnd : (x.migrations.map Migration.id).Nodup)
    (hok : ∀ m ∈ x.migrations, m.migrate = true)
    (hSync : s.db.syncErr = false)
    (hCnt : s.db.countErr = false)
    (hIns : s.db.insertErr = false) :
    ((∀ m ∈ x.migrations, m.id ≠ tgt) →
        MigrateTo x tgt s = (s, some GoErr.migrationIDDoesNotExist)) ∧
    (∀ pre t post, x.migrations = pre ++ t :: post → t.id = tgt →
      (∀ m ∈ pre, m.id ≠ tgt) →
        (MigrateTo x tgt s).2 = none ∧
        (MigrateTo x tgt s).1.forwards = s.forwards ++ ranIds s (pre ++ [t]) ∧
        (MigrateTo x tgt s).1.db.records = s.db.records ++ ranIds s (pre ++ [t]) ∧
        ∀ m ∈ post, (m.id ∈ (MigrateTo x tgt s).1.db.records ↔ m.id ∈ s.db.records)) := by
  constructor
  · intro habs
    have hEx : checkIDExist x tgt = some .migrationIDDoesNotExist :=
      checkIDExistAux_eq_some _ _ habs
    simp [MigrateTo, hEx]
  · intro pre t post hsplit ht hpre
    have htmem : t ∈ x.migrations := by
      rw [hsplit]
      exact List.mem_append_right _ (by simp)
    have hEx : checkIDExist x tgt = none :=
      checkIDExistAux_eq_none _ _ ⟨t, htmem, ht⟩
    have hne : x.migrations ≠ [] := by
      rw [hsplit]
      simp
    have hHas := hasMigrations_of_ne_nil x hne
    have hRes : checkReservedID x = none := by
      rw [checkReservedID, checkReservedIDAux_eq_none_iff]
      exact hsent
    have hDup : checkDuplicatedID x = none := by
      rw [checkDuplicatedID, checkDuplicatedIDAux_eq_none_iff]
      exact ⟨hnd, by simp⟩
    have htne : tgt ≠ "" := ht ▸ hids t htmem
    have hmemPT : ∀ m ∈ pre ++ [t], m ∈ x.migrations := by
      intro m hm
      rw [hsplit]
      rcases List.mem_append.mp hm with h | h
      · exact List.mem_append_left _ h
      · simp only [List.mem_singleton] at h
        subst h
        exact List.mem_append_right _ (by simp)
    have hidsPT : ∀ m ∈ pre ++ [t], m.id ≠ "" := fun m hm => hids m (hmemPT m hm)
    have hokPT : ∀ m ∈ pre ++ [t], m.migrate = true := fun m hm => hok m (hmemPT m hm)
    have hfullmap : (pre ++ t :: post).map Migration.id
        = ((pre ++ [t]).map Migration.id) ++ post.map Migration.id := by simp
    have hndPT : ((pre ++ [t]).map Migration.id).Nodup := by
      rw [hsplit, hfullmap] at hnd
      exact hnd.of_append_left
    have hloop := migrateLoop_upto tgt pre t post { s with ensured := true }
        hidsPT hokPT hIns hpre ht htne (Or.inr hndPT)
    have hsub : ranIds s (pre ++ [t]) ⊆ (pre ++ [t]).map Migration.id := by
      intro a ha
      unfold ranIds at ha
      rcases List.mem_map.mp ha with ⟨m, hm, rfl⟩
      exact List.mem_map_of_mem _ ((List.filter_sublist _).subset hm)
    simp only [MigrateTo, hEx]
    rw [migrate_loop_path x tgt s hHas hRes hDup hSync hInit, hsplit, hloop]
    refine ⟨rfl, rfl, rfl, ?_⟩
    intro m hm
    have hdisj : m.id ∉ (pre ++ [t]).map Migration.id := by
      rw [hsplit, hfullmap] at hnd
      have hdj := List.disjoint_of_nodup_append hnd
      intro habs
      exact hdj habs (List.mem_map_of_mem _ hm)
    show m.id ∈ s.db.records ++ ranIds s (pre ++ [t]) ↔ m.id ∈ s.db.records
    constructor
    · intro hmem
      rcases List.mem_append.mp hmem with h | h
      · exact h
      · exact absurd (hsub h) hdisj
    · exact fun hmem => List.mem_append_left _ hmem

/-- Witness for C4 at the concrete example of the spec: registry [A, B] with
A already applied; MigrateTo B applies only B. -/
theorem C4_migrate_to_target_witness :
    (MigrateTo ⟨[⟨"A", true, some true⟩, ⟨"B", true, some true⟩], none⟩ "B"
        (initSt ["A"])).2 = none ∧
    (MigrateTo ⟨[⟨"A", true, some true⟩, ⟨"B", true, some true⟩], none⟩ "B"
        (initSt ["A"])).1.forwards = ["B"] ∧
    (MigrateTo ⟨[⟨"A", true, some true⟩, ⟨"B", true, some true⟩], none⟩ "B"
        (initSt ["A"])).1.db.records = ["A", "B"] := by
  have h := (C4_migrate_to_target
      ⟨[⟨"A", true, some true⟩, ⟨"B", true, some true⟩], none⟩ "B" (initSt ["A"])
      rfl (by decide) (by decide) (by decide) (by decide) rfl rfl rfl).2
      [⟨"A", true, some true⟩] ⟨"B", true, some true⟩ [] rfl rfl (by decide)
  refine ⟨h.1, ?_, ?_⟩
  · rw [h.2.1]
    decide
  · rw [h.2.2.1]
    decide

/-- C9: for registry [a, b, c] of distinct valid migrations, none applied and
all succeeding, Migrate succeeds, invokes the three forward actions in
registry order, and the tracking storage ends with exactly the three records
in that creation order. -/
theorem C9_order_preservation (a b c : Migration) (s : St)
    (hab : a.id ≠ b.id) (hac : a.id ≠ c.id) (hbc : b.id ≠ c.id)
    (ha : a.id ≠ "") (hb : b.id ≠ "") (hc : c.id ≠ "")
    (hsa : a.id ≠ initSchemaMigrationId) (hsb : b.id ≠ initSchemaMigrationId)
    (hsc : c.id ≠ initSchemaMigrationId)
    (hma : a.migrate = true) (hmb : b.migrate = true) (hmc : c.migrate = true)
    (hSync : s.db.syncErr = false) (hCnt : s.db.countErr = false)
    (hIns : s.db.insertErr = false) (hrec : s.db.records = []) :
    (Migrate ⟨[a, b, c], none⟩ s).2 = none ∧
    (Migrate ⟨[a, b, c], none⟩ s).1.forwards = s.forwards ++ [a.id, b.id, c.id] ∧
    (Migrate ⟨[a, b, c], none⟩ s).1.db.records = [a.id, b.id, c.id] := by
  have hHas : hasMigrations ⟨[a, b, c], none⟩ = true := by simp [hasMigrations]
  have hRes : checkReservedID ⟨[a, b, c], none⟩ = none := by
    simp [checkReservedID, checkReservedIDAux, hsa, hsb, hsc]
  have hDup : checkDuplicatedID ⟨[a, b, c], none⟩ = none := by
    simp [checkDuplicatedID, checkDuplicatedIDAux, hab.symm, hac.symm, hbc.symm]
  have hnone : ∀ m : Migration, migrationDidRun s m = false := by
    intro m
    simp [migrationDidRun, hCnt, hrec]
  have hran : ranIds s ([a, b] ++ [c]) = [a.id, b.id, c.id] := by
    simp [ranIds, hnone]
  have hloop := migrateLoop_upto c.id [a, b] c [] { s with ensured := true }
      (by
        intro m hm
        simp only [List.cons_append, List.nil_append, List.mem_cons,
          List.not_mem_nil, or_false] at hm
        rcases hm with rfl | rfl | rfl
        · exact ha
        · exact hb
        · exact hc)
      (by
        intro m hm
        simp only [List.cons_append, List.nil_append, List.mem_cons,
          List.not_mem_nil, or_false] at hm
        rcases hm with rfl | rfl | rfl
        · exact hma
        · exact hmb
        · exact hmc)
      hIns
      (by
        intro m hm
        simp only [List.mem_cons, List.not_mem_nil, or_false] at hm
        rcases hm with rfl | rfl
        · exact hac
        · exact hbc)
      rfl hc (Or.inr (by simp [hab, hac, hbc]))
  have hmig : Migrate ⟨[a, b, c], none⟩ s = migrate ⟨[a, b, c], none⟩ c.id s := by
    simp [Migrate, hHas]
  rw [hmig, migrate_loop_ok ⟨[a, b, c], none⟩ c.id s _ hHas hRes hDup hSync rfl hloop]
  refine ⟨rfl, ?_, ?_⟩
  · show s.forwards ++ ranIds s ([a, b] ++ [c]) = s.forwards ++ [a.id, b.id, c.id]
    rw [hran]
  · show s.db.records ++ ranIds s ([a, b] ++ [c]) = [a.id, b.id, c.id]
    rw [hran, hrec]
    rfl

/-- Witness for C9 at a concrete input. -/
theorem C9_order_preservation_witness :
    (Migrate ⟨[⟨"A", true, none⟩, ⟨"B", true, none⟩, ⟨"C", true, none⟩], none⟩
        (initSt [])).2 = none ∧
    (Migrate ⟨[⟨"A", true, none⟩, ⟨"B", true, none⟩, ⟨"C", true, none⟩], none⟩
        (initSt [])).1.forwards = (initSt []).forwards ++ ["A", "B", "C"] ∧
    (Migrate ⟨[⟨"A", true, none⟩, ⟨"B", true, none⟩, ⟨"C", true, none⟩], none⟩
        (initSt [])).1.db.records = ["A", "B", "C"] :=
  C9_order_preservation ⟨"A", true, none⟩ ⟨"B", true, none⟩ ⟨"C", true, none⟩
    (initSt []) (by decide) (by decide) (by decide) (by decide) (by decide)
    (by decide) (by decide) (by decide) (by decide) rfl rfl rfl rfl rfl rfl rfl

/-- C10: when the count query fails, `migrationDidRun` reports false and
discards the error; consequently a previously applied migration is run again
by `Migrate` and the caller sees success, never the read error. -/
theorem C10_count_error_silent_rerun (m : Migration) (s : St)
    (hCnt : s.db.countErr = true)
    (hmem : m.id ∈ s.db.records)
    (hid : m.id ≠ "") (hok : m.migrate = true)
    (hIns : s.db.insertErr = false) (hSync : s.db.syncErr = false)
    (hsent : m.id ≠ initSchemaMigrationId) :
    migrationDidRun s m = false ∧
    runMigration s m =
      ({ s with
          db := { s.db with records := s.db.records ++ [m.id] },
          pending := s.pending ++ [m.id],
          forwards := s.forwards ++ [m.id] }, none) ∧
    (Migrate ⟨[m], none⟩ s).2 = none ∧
    (Migrate ⟨[m], none⟩ s).1.forwards = s.forwards ++ [m.id] := by
  have hd : migrationDidRun s m = false := by simp [migrationDidRun, hCnt]
  have hHas : hasMigrations ⟨[m], none⟩ = true := by simp [hasMigrations]
  have hRes : checkReservedID ⟨[m], none⟩ = none := by
    simp [checkReservedID, checkReservedIDAux, hsent]
  have hDup : checkDuplicatedID ⟨[m], none⟩ = none := by
    simp [checkDuplicatedID, checkDuplicatedIDAux]
  have hloop := migrateLoop_upto m.id [] m [] { s with ensured := true }
      (by
        intro m2 hm2
        simp only [List.nil_append, List.mem_singleton] at hm2
        subst hm2
        exact hid)
      (by
        intro m2 hm2
        simp only [List.nil_append, List.mem_singleton] at hm2
        subst hm2
        exact hok)
      hIns (by intro m2 hm2; cases hm2) rfl hid (Or.inl hCnt)
  have hmig : Migrate ⟨[m], none⟩ s = migrate ⟨[m], none⟩ m.id s := by
    simp [Migrate, hHas]
  rw [hmig, migrate_loop_ok ⟨[m], none⟩ m.id s _ hHas hRes hDup hSync rfl hloop]
  refine ⟨hd, runMigration_run s m hid hd hok hIns, rfl, ?_⟩
  show s.forwards ++ ranIds s ([] ++ [m]) = s.forwards ++ [m.id]
  rw [show ranIds s ([] ++ [m]) = [m.id] by simp [ranIds, hd]]

/-- Witness for C10 at a concrete input: record A exists but the count read
fails. -/
theorem C10_count_error_silent_rerun_witness :
    migrationDidRun
      { initSt ["A"] with db := { (initSt ["A"]).db with countErr := true } }
      ⟨"A", true, none⟩ = false ∧
    (Migrate ⟨[⟨"A", true, none⟩], none⟩
        { initSt ["A"] with db := { (initSt ["A"]).db with countErr := true } }).2
      = none := by
  have h := C10_count_error_silent_rerun ⟨"A", true, none⟩
      { initSt ["A"] with db := { (initSt ["A"]).db with countErr := true } }
      rfl (by decide) (by decide) rfl rfl rfl (by decide)
  exact ⟨h.1, h.2.2.1⟩

/-- C8: idempotence of Migrate over a healthy store: after a successful
Migrate call, running Migrate again returns success and leaves the state
completely unchanged — no forward action is invoked (the forward log is part
of the state) and no record is written. -/
theorem C8_migrate_idempotent (x : Xormigrate) (s : St)
    (hCnt : s.db.countErr = false)
    (hids : ∀ m ∈ x.migrations, m.id ≠ "")
    (h1 : (Migrate x s).2 = none) :
    Migrate x (Migrate x s).1 = ((Migrate x s).1, none) := by
  cases hHas : hasMigrations x with
  | false => simp [Migrate, hHas] at h1
  | true =>
    have hmig : Migrate x s
        = migrate x
            (match x.migrations.getLast? with
             | some m => m.id
             | none => "") s := by
      simp [Migrate, hHas]
    rw [hmig] at h1 ⊢
    obtain ⟨-, hRes, hDup, hSync, hEq⟩ := migrate_ok_inv x _ s h1
    have hnd : (x.migrations.map Migration.id).Nodup :=
      ((checkDuplicatedIDAux_eq_none_iff _ _).mp hDup).1
    have htgtlast : ∀ (hne : x.migrations ≠ []),
        (match x.migrations.getLast? with
         | some m => m.id
         | none => "") = (x.migrations.getLast hne).id := by
      intro hne
      rw [List.getLast?_eq_getLast_of_ne_nil hne]
    rw [hEq] at h1 ⊢
    cases hI : x.initSchema with
    | none =>
      have hSess : migrateSession x
          (match x.migrations.getLast? with
           | some m => m.id
           | none => "") { s with ensured := true } =
          (match migrateLoop
              (match x.migrations.getLast? with
               | some m => m.id
               | none => "") x.migrations { s with ensured := true } with
           | (s2, some e) => (rollbackTx s2, some e)
           | (s2, none) => (commitTx s2, none)) := by
        simp [migrateSession, hI]
      rcases hL : migrateLoop
          (match x.migrations.getLast? with
           | some m => m.id
           | none => "") x.migrations { s with ensured := true } with ⟨S2, e⟩
      rw [hSess, hL] at h1 ⊢
      cases e with
      | some err => simp at h1
      | none =>
        show Migrate x (commitTx S2) = (commitTx S2, none)
        have hx : Extends { s with ensured := true } S2 := by
          have hm := migrateLoop_extends
            (match x.migrations.getLast? with
             | some m => m.id
             | none => "") x.migrations { s with ensured := true }
          rw [hL] at hm
          exact hm
        have happ := migrateLoop_ok_all_applied x.migrations { s with ensured := true }
          S2 _ hnd htgtlast hL
        apply Migrate_noop x (commitTx S2) hHas hRes hDup
        · exact hx.2.2.2.1.trans hSync
        · exact hx.2.2.2.2.2
        · rfl
        · exact hx.2.1.trans hCnt
        · exact hids
        · exact happ
        · intro b hb
          rw [hI] at hb
          cases hb
    | some b =>
      by_cases hCI : canInitializeSchema { s with ensured := true } = true
      · rcases hR : runInitSchema x b { s with ensured := true } with ⟨S2, e⟩
        have hSess : migrateSession x
            (match x.migrations.getLast? with
             | some m => m.id
             | none => "") { s with ensured := true } =
            (match runInitSchema x b { s with ensured := true } with
             | (s2, some e) => (rollbackTx s2, some e)
             | (s2, none) => (commitTx s2, none)) := by
          simp [migrateSession, hI, hCI]
        rw [hSess, hR] at h1 ⊢
        cases e with
        | some err => simp at h1
        | none =>
          show Migrate x (commitTx S2) = (commitTx S2, none)
          obtain ⟨hrec, hcnt2, hsync2, hens2⟩ := runInitSchema_ok_inv x b _ S2 hR
          apply Migrate_noop x (commitTx S2) hHas hRes hDup
          · exact hsync2.trans hSync
          · exact hens2
          · rfl
          · exact hcnt2.trans hCnt
          · exact hids
          · intro m hm
            show m.id ∈ S2.db.records
            rw [hrec]
            exact List.mem_append_right _ (List.mem_map_of_mem _ hm)
          · intro b2 hb2
            apply canInit_false_of_ne_nil
            show S2.db.records ≠ []
            rw [hrec]
            simp
      · have hCIf : canInitializeSchema { s with ensured := true } = false := by
          simpa using hCI
        rcases hL : migrateLoop
            (match x.migrations.getLast? with
             | some m => m.id
             | none => "") x.migrations { s with ensured := true } with ⟨S2, e⟩
        have hSess : migrateSession x
            (match x.migrations.getLast? with
             | some m => m.id
             | none => "") { s with ensured := true } =
            (match migrateLoop
                (match x.migrations.getLast? with
                 | some m => m.id
                 | none => "") x.migrations { s with ensured := true } with
             | (s2, some e) => (rollbackTx s2, some e)
             | (s2, none) => (commitTx s2, none)) := by
          simp [migrateSession, hI, hCIf]
        rw [hSess, hL] at h1 ⊢
        cases e with
        | some err => simp at h1
        | none =>
          show Migrate x (commitTx S2) = (commitTx S2, none)
          have hx : Extends { s with ensured := true } S2 := by
            have hm := migrateLoop_extends
              (match x.migrations.getLast? with
               | some m => m.id
               | none => "") x.migrations { s with ensured := true }
            rw [hL] at hm
            exact hm
          have happ := migrateLoop_ok_all_applied x.migrations { s with ensured := true }
            S2 _ hnd htgtlast hL
          apply Migrate_noop x (commitTx S2) hHas hRes hDup
          · exact hx.2.2.2.1.trans hSync
          · exact hx.2.2.2.2.2
          · rfl
          · exact hx.2.1.trans hCnt
          · exact hids
          · exact happ
          · intro b2 hb2
            apply canInit_false_of_ne_nil
            show S2.db.records ≠ []
            have hne0 : ({ s with ensured := true } : St).db.records ≠ [] :=
              canInit_false_records_ne _ hCnt hCIf
            obtain ⟨δ, hδ⟩ := hx.1
            rw [hδ]
            intro habs
            rcases List.append_eq_nil.mp habs with ⟨ha, -⟩
            exact hne0 ha

/-- Witness for C8 at a concrete input. -/
theorem C8_migrate_idempotent_witness :
    Migrate ⟨[⟨"A", true, none⟩, ⟨"B", true, none⟩], none⟩
        (Migrate ⟨[⟨"A", true, none⟩, ⟨"B", true, none⟩], none⟩ (initSt [])).1
      = ((Migrate ⟨[⟨"A", true, none⟩, ⟨"B", true, none⟩], none⟩ (initSt [])).1, none) :=
  C8_migrate_idempotent ⟨[⟨"A", true, none⟩, ⟨"B", true, none⟩], none⟩ (initSt [])
    rfl (by decide) rfl

end XM
